import Mathlib

/-!
# Jitter statistics of `ppsstat.c`

A shallow embedding of `src/ppsstat.c` and the properties of its statistics block
(`fetch_source`, lines 117-141), its retry loop (lines 97-114) and the loop of `main`
(lines 169-174).

* `double` is a type parameter `α` with the four field operations, a conversion from the
  integers, `sqrt` and a conversion to `long long`. It is instantiated twice: by `F64`, a
  model of IEEE 754 binary64 in which every operation rounds its exact result once, to
  nearest with ties to even (no fused multiply-add, no excess precision); and by the real
  numbers, for the statements made in exact arithmetic.
* `time_pps_fetch` belongs to the kernel interface: a run of the program is determined by
  the list of its completed calls (`Fetch`), each with its return value, the value of
  `errno` it leaves (`fprintf` is taken not to change it) and the timestamp delivered.
* The fields of a `struct timespec` and the counter are unbounded integers; signed overflow
  is undefined in C and cannot occur for the timestamps of the kernel (not negative) nor for
  fewer than `2 ^ 31` reports.
-/

/-! ## Binary64 -/

/-- A C `double`: a finite value (held as the rational it denotes; the sign of zero is not
tracked), an infinity or a NaN. -/
inductive F64 where
  | fin (q : ℚ)
  | pinf
  | ninf
  | nan
deriving DecidableEq

namespace F64

/-- Floor of the binary logarithm of `n`, for `n ≥ 1`; the first argument bounds the recursion. -/
def log2Fuel : Nat → Nat → Nat
  | 0, _ => 0
  | fuel + 1, n => if n < 2 then 0 else log2Fuel fuel (n / 2) + 1

/-- Floor of the binary logarithm of the positive rational `n / d`. -/
def ilog2 (n d : Nat) : Int :=
  let e0 : Int := (log2Fuel n n : Int) - (log2Fuel d d : Int)
  if 0 ≤ e0 then (if n < d * 2 ^ e0.toNat then e0 - 1 else e0)
  else (if n * 2 ^ (-e0).toNat < d then e0 - 1 else e0)

/-- Nearest integer to `n / d`, ties to the even one. -/
def roundHalfEven (n d : Nat) : Nat :=
  let q := n / d
  let r := n % d
  if 2 * r < d then q
  else if d < 2 * r then q + 1
  else if q % 2 = 0 then q else q + 1

/-- The least power of two too large for a finite binary64 value. -/
def overflowBound : Nat := 2 ^ 1024

/-- The value `sign * m * 2 ^ e` as a `double`: infinite from `2 ^ 1024` on. -/
def pack (neg : Bool) (m : Nat) (e : Int) : F64 :=
  if 0 ≤ e then
    if overflowBound ≤ m * 2 ^ e.toNat then (if neg then ninf else pinf)
    else fin (if neg then -((m * 2 ^ e.toNat : Nat) : Int) else ((m * 2 ^ e.toNat : Nat) : Int))
  else fin (mkRat (if neg then -(m : Int) else (m : Int)) (2 ^ (-e).toNat))

/-- Rounding of an exact rational result to binary64: 53 significant bits, exponent of the
last place at least `-1074` (gradual underflow), overflow to infinity. -/
def roundNE (q : ℚ) : F64 :=
  if q.num = 0 then fin 0 else
  let n := q.num.natAbs
  let d := q.den
  let qe : Int := max (ilog2 n d) (-1022) - 52
  let m := if 0 ≤ qe then roundHalfEven n (d * 2 ^ qe.toNat)
           else roundHalfEven (n * 2 ^ (-qe).toNat) d
  pack (decide (q.num < 0)) m qe

/-- Integer square root by bisection on the bits: `sqrtBits n k r` adds to `r` the bits below
position `k` whose square stays within `n`. -/
def sqrtBits (n : Nat) : Nat → Nat → Nat
  | 0, r => r
  | k + 1, r => if (r + 2 ^ k) * (r + 2 ^ k) ≤ n then sqrtBits n k (r + 2 ^ k) else sqrtBits n k r

/-- Correctly rounded square root of a positive rational `n / d`. -/
def roundSqrt (n d : Nat) : F64 :=
  let qe : Int := (ilog2 n d) / 2 - 52
  -- `n / d = (N / D) * 4 ^ qe`, with `2 ^ 104 ≤ N / D < 2 ^ 106`
  let N := if 0 ≤ qe then n else n * 4 ^ (-qe).toNat
  let D := if 0 ≤ qe then d * 4 ^ qe.toNat else d
  let r := sqrtBits (N / D) 53 0
  -- compare `sqrt (N / D)` with `r + 1/2`
  let lhs := 4 * N
  let rhs := D * ((2 * r + 1) * (2 * r + 1))
  let m := if lhs < rhs then r else if rhs < lhs then r + 1 else if r % 2 = 0 then r else r + 1
  pack false m qe

def neg : F64 → F64
  | fin a => fin (-a)
  | pinf => ninf
  | ninf => pinf
  | nan => nan

def add : F64 → F64 → F64
  | fin a, fin b => roundNE (a + b)
  | nan, _ => nan
  | _, nan => nan
  | pinf, ninf => nan
  | ninf, pinf => nan
  | pinf, _ => pinf
  | _, pinf => pinf
  | ninf, _ => ninf
  | _, ninf => ninf

def sub (x y : F64) : F64 := add x (neg y)

/-- Sign rule for a product or quotient with an infinite result. -/
def signedInf (negative : Bool) : F64 := if negative then ninf else pinf

def mul : F64 → F64 → F64
  | fin a, fin b => roundNE (a * b)
  | nan, _ => nan
  | _, nan => nan
  | fin a, pinf => if a.num = 0 then nan else signedInf (decide (a.num < 0))
  | fin a, ninf => if a.num = 0 then nan else signedInf (decide (0 < a.num))
  | pinf, fin b => if b.num = 0 then nan else signedInf (decide (b.num < 0))
  | ninf, fin b => if b.num = 0 then nan else signedInf (decide (0 < b.num))
  | pinf, pinf => pinf
  | ninf, ninf => pinf
  | pinf, ninf => ninf
  | ninf, pinf => ninf

/-- Division. A zero divisor is taken as `+0`: the divisors of the program are the constant
`1E3` and an `int` converted to `double`. -/
def div : F64 → F64 → F64
  | fin a, fin b =>
    if b.num = 0 then (if a.num = 0 then nan else signedInf (decide (a.num < 0)))
    else roundNE (a / b)
  | nan, _ => nan
  | _, nan => nan
  | fin _, _ => fin 0
  | pinf, fin b => signedInf (decide (b.num < 0))
  | ninf, fin b => signedInf (decide (0 ≤ b.num))
  | _, _ => nan

/-- The libm function `sqrt`: NaN (domain error) on a negative argument. -/
def sqrt : F64 → F64
  | fin a => if a.num < 0 then nan else if a.num = 0 then fin 0 else roundSqrt a.num.natAbs a.den
  | pinf => pinf
  | ninf => nan
  | nan => nan

/-- Conversion of an integer to `double`. -/
def ofInt (z : Int) : F64 := roundNE z

/-- Conversion of a `double` to `long long`: truncation toward zero. Outside the range of
`long long` the C conversion is undefined; the model gives `LLONG_MIN` there. -/
def toLongLong : F64 → Int
  | fin a =>
    let t := Int.tdiv a.num a.den
    if -2 ^ 63 ≤ t ∧ t < 2 ^ 63 then t else -2 ^ 63
  | _ => -2 ^ 63

instance : Add F64 := ⟨add⟩
instance : Sub F64 := ⟨sub⟩
instance : Mul F64 := ⟨mul⟩
instance : Div F64 := ⟨div⟩
instance : IntCast F64 := ⟨ofInt⟩

/-- A `double` that is neither zero nor a NaN. -/
def IsNonzero (x : F64) : Prop := x = pinf ∨ x = ninf ∨ ∃ v : ℚ, x = fin v ∧ v.num ≠ 0

end F64

/-! ## The program `ppsstat.c` -/

namespace PpsStat

/-- The value of `EINTR` in `<errno.h>` (Linux). -/
def EINTR : Int := 4

/-- The value of `ETIMEDOUT` in `<errno.h>` (Linux). -/
def ETIMEDOUT : Int := 110

/-- A `struct timespec`: both fields are signed integers (`time_t` and `long`). -/
structure Timespec where
  tv_sec : Int
  tv_nsec : Int
deriving DecidableEq

/-- The two library routines applied to a `double` by `fetch_source` that are not field
operations: `sqrt` of `<math.h>` and the conversion to `long long`. -/
structure Libm (α : Type) where
  sqrt : α → α
  toLongLong : α → Int

/-- The routines of `Libm` for binary64. -/
def libm64 : Libm F64 := ⟨F64.sqrt, F64.toLongLong⟩

/-- The `static` locals of `fetch_source` (lines 88-91); `α` is the type that stands for
`double`. `count` is an `int` that only ever grows by one per report; it is held as an
unbounded integer, which agrees with the C variable up to `INT_MAX` reports. -/
structure Statics (α : Type) where
  prev : Timespec
  pps_sum : α
  pps_sum_sq : α
  count : Int
deriving DecidableEq

/-- The arguments of the `printf` of lines 129-138: one line
`diff <delta> ns - pps <pps> - avg <avg> - std <std>` on standard output. -/
structure Report (α : Type) where
  delta : Int
  pps : α
  avg : α
  std : α
deriving DecidableEq

/-- A line written to standard error by `fetch_source`. -/
inductive Diag where
  | got_signal
  | fetch_error (ret : Int) (errno : Int)
deriving DecidableEq

/-- One completed call of `time_pps_fetch`: its return value, the value of `errno` when it
returns, and the assert timestamp it left in `infobuf`. -/
structure Fetch where
  ret : Int
  errno : Int
  assert_timestamp : Timespec
deriving DecidableEq

section Generic

variable {α : Type} [Add α] [Sub α] [Mul α] [Div α] [IntCast α]

/-- The initial values of the `static` locals: `prev = {}`, sums and count zero. -/
def Statics.fresh : Statics α := ⟨⟨0, 0⟩, ((0 : Int) : α), ((0 : Int) : α), 0⟩

/-- The expression assigned to `var` on line 126, on the values of the statics:
`pps_sum_sq / count - pps_sum / count * pps_sum / count`. -/
def variance (s : Statics α) : α :=
  s.pps_sum_sq / (s.count : α) - s.pps_sum / (s.count : α) * s.pps_sum / (s.count : α)

/-- The value of `delta` on lines 118-119: the difference of the seconds is an integer, its
product with `1E9` and the sum with the difference of the nanoseconds are taken in `double`,
and the result is converted to `long long`. -/
def delta_ns (m : Libm α) (prev cur : Timespec) : Int :=
  m.toLongLong (((cur.tv_sec - prev.tv_sec : Int) : α) * ((1000000000 : Int) : α)
    + ((cur.tv_nsec - prev.tv_nsec : Int) : α))

/-- Lines 117-141 of `fetch_source`: what a successful fetch with assert timestamp `ts` does
to the statics, and the report it prints (none while `prev` is zero). -/
def fetch_source_stats (m : Libm α) (s : Statics α) (ts : Timespec) :
    Statics α × Option (Report α) :=
  if s.prev.tv_sec ≠ 0 ∨ s.prev.tv_nsec ≠ 0 then
    let delta : Int := delta_ns m s.prev ts
    let pps : α := ((delta : α) * ((1 : Int) : α) - ((1000000000 : Int) : α)) / ((1000 : Int) : α)
    let s1 : Statics α := ⟨ts, s.pps_sum + pps, s.pps_sum_sq + pps * pps, s.count + 1⟩
    let std : α := m.sqrt (variance s1)
    (s1, some ⟨delta, pps, s1.pps_sum / (s1.count : α), std⟩)
  else (⟨ts, s.pps_sum, s.pps_sum_sq, s.count⟩, none)

/-- The state in which a call of `fetch_source` leaves the process. `ret` is the value
returned, or `none` when the call is still blocked in `time_pps_fetch` because the list of
completed fetches is used up; `rest` are the fetches not yet consumed. -/
structure Call (α : Type) where
  ret : Option Int
  errno : Int
  statics : Statics α
  out : Option (Report α)
  err : List Diag
  rest : List Fetch

/-- The function `fetch_source` (lines 83-144) run on the statics `s`, the calls of
`time_pps_fetch` completing as listed. A negative return equal to `-EINTR` logs and jumps
back to `retry`; another negative return logs and returns `-1`; otherwise the statistics
block runs and `0` is returned. Both branches on `PPS_CANWAIT` issue the same fetch (one
sleeps first), so `avail_mode` does not appear. -/
def fetch_source (m : Libm α) (s : Statics α) : List Fetch → Call α
  | [] => ⟨none, 0, s, none, [], []⟩
  | f :: rest =>
    if f.ret < 0 then
      if f.ret = -EINTR then
        let c := fetch_source m s rest
        ⟨c.ret, c.errno, c.statics, c.out, Diag.got_signal :: c.err, c.rest⟩
      else ⟨some (-1), f.errno, s, none, [Diag.fetch_error f.ret f.errno], rest⟩
    else
      let r := fetch_source_stats m s f.assert_timestamp
      ⟨some 0, f.errno, r.1, r.2, [], rest⟩

/-- What the process has done once the listed fetches are used up: the reports on standard
output, the lines on standard error, the statics, and whether `exit(EXIT_FAILURE)` was
called (otherwise the process is blocked in `time_pps_fetch`). -/
structure Run (α : Type) where
  stdout : List (Report α)
  stderr : List Diag
  statics : Statics α
  exited : Bool
deriving DecidableEq

/-- The `while (1)` loop of `main` (lines 169-174), at most `fuel` iterations: call
`fetch_source`, exit with failure when it returned a negative value and `errno` is not
`ETIMEDOUT`, go round again otherwise. The result is `none` when `fuel` iterations do not
use up the fetches. -/
def main_loop (m : Libm α) : Nat → Statics α → List Fetch → Option (Run α)
  | 0, _, _ => none
  | fuel + 1, s, fs =>
    let c := fetch_source m s fs
    match c.ret with
    | none => some ⟨c.out.toList, c.err, c.statics, false⟩
    | some ret =>
      if ret < 0 ∧ c.errno ≠ ETIMEDOUT then some ⟨c.out.toList, c.err, c.statics, true⟩
      else
        match main_loop m fuel c.statics c.rest with
        | none => none
        | some r => some ⟨c.out.toList ++ r.stdout, c.err ++ r.stderr, r.statics, r.exited⟩

/-- The loop of `main` from the fresh statics, with the fuel that always suffices: every
iteration that goes round again has consumed a fetch. -/
def main (m : Libm α) (fs : List Fetch) : Option (Run α) :=
  main_loop m (fs.length + 1) Statics.fresh fs

/-- A successful fetch that delivers the timestamp `ts`. -/
def pulse (ts : Timespec) : Fetch := ⟨0, 0, ts⟩

/-- Modelled from the spec: the `InterruptedFetch` of its section 7, a call of
`time_pps_fetch` (from `timepps.h`, which is not among the sources) cut short by a signal.
The call fails the way lines 112 and 172 read a failure, as a system call does: the return
value is -1 and the cause is in `errno`, here `EINTR`. -/
def interrupted : Fetch := ⟨-1, EINTR, ⟨0, 0⟩⟩

end Generic

end PpsStat

namespace PpsStat

/-- The timestamps of `n` pulses exactly one second apart, the first at `s` seconds and `ns`
nanoseconds. -/
def ticks (s ns : Int) : Nat → List Timespec
  | 0 => []
  | n + 1 => ⟨s, ns⟩ :: ticks (s + 1) ns n

end PpsStat

namespace PpsStat

section Generic

variable {α : Type} [Add α] [Sub α] [Mul α] [Div α] [IntCast α]

/-- The arithmetic of lines 121-127 on its own: from the sums, the count and the value of
`delta` to the new sums and count and to the report. -/
def accumulate (m : Libm α) (pps_sum pps_sum_sq : α) (count delta : Int) :
    (α × α × Int) × Report α :=
  let pps : α := ((delta : α) * ((1 : Int) : α) - ((1000000000 : Int) : α)) / ((1000 : Int) : α)
  let s1 : Statics α := ⟨⟨0, 0⟩, pps_sum + pps, pps_sum_sq + pps * pps, count + 1⟩
  ((s1.pps_sum, s1.pps_sum_sq, s1.count),
    ⟨delta, pps, s1.pps_sum / (s1.count : α), m.sqrt (variance s1)⟩)

end Generic

end PpsStat

namespace PpsStat

/-- The arithmetic mean `(d_1 + ... + d_k) / k` of the claim. -/
def mean_spec {K : Type} [Field K] (l : List K) : K := l.sum / (l.length : K)

/-- The population variance `(1 / k) * sum_i (d_i - mean) ^ 2` of the claim; the population
standard deviation is its square root. -/
def pop_variance_spec {K : Type} [Field K] (l : List K) : K :=
  (1 / (l.length : K)) * (l.map (fun d => (d - mean_spec l) ^ 2)).sum

/-- The statics hold the count, the sum and the sum of squares of the deviations `ds`. -/
def Accumulated (s : Statics ℝ) (ds : List ℝ) : Prop :=
  s.count = (ds.length : Int) ∧ s.pps_sum = ds.sum ∧ s.pps_sum_sq = (ds.map (fun d => d * d)).sum

end PpsStat

namespace PpsStat

section Generic

variable {α : Type} [Add α] [Sub α] [Mul α] [Div α] [IntCast α]

/-- The loop of `main` unrolled along the list of fetches, one fetch at a time; it is shown
below to be the value of `main_loop` whenever the fuel exceeds the number of fetches. -/
def unrolled (m : Libm α) (s : Statics α) : List Fetch → Run α
  | [] => ⟨[], [], s, false⟩
  | f :: fs =>
    if f.ret < 0 then
      if f.ret = -EINTR then
        let r := unrolled m s fs
        ⟨r.stdout, Diag.got_signal :: r.stderr, r.statics, r.exited⟩
      else if f.errno ≠ ETIMEDOUT then ⟨[], [Diag.fetch_error f.ret f.errno], s, true⟩
      else
        let r := unrolled m s fs
        ⟨r.stdout, Diag.fetch_error f.ret f.errno :: r.stderr, r.statics, r.exited⟩
    else
      let p := fetch_source_stats m s f.assert_timestamp
      let r := unrolled m p.1 fs
      ⟨p.2.toList ++ r.stdout, r.stderr, r.statics, r.exited⟩

end Generic

end PpsStat

/-! ## The loop of `main`, one fetch at a time -/

namespace PpsStat

section Generic

variable {α : Type} [Add α] [Sub α] [Mul α] [Div α] [IntCast α]

/-- An interrupted fetch at the head only adds its line in front of standard error. -/
theorem main_loop_eintr (m : Libm α) (k : Nat) (s : Statics α) (f : Fetch) (fs : List Fetch)
    (h1 : f.ret < 0) (h2 : f.ret = -EINTR) :
    main_loop m (k + 1) s (f :: fs) =
      (main_loop m (k + 1) s fs).map
        (fun r => ⟨r.stdout, Diag.got_signal :: r.stderr, r.statics, r.exited⟩) := by
  simp only [main_loop, fetch_source, if_pos h1, if_pos h2]
  cases hc : (fetch_source m s fs).ret with
  | none => simp
  | some ret =>
    simp only
    by_cases hx : ret < 0 ∧ (fetch_source m s fs).errno ≠ ETIMEDOUT
    · simp [if_pos hx]
    · simp only [if_neg hx]
      cases main_loop m k (fetch_source m s fs).statics (fetch_source m s fs).rest <;> simp

/-- With more fuel than fetches the loop of `main` returns, and its value is `unrolled`. -/
theorem main_loop_eq_unrolled (m : Libm α) (fs : List Fetch) :
    ∀ (fuel : Nat) (s : Statics α), fs.length < fuel →
      main_loop m fuel s fs = some (unrolled m s fs) := by
  induction fs with
  | nil =>
    intro fuel s h
    cases fuel with
    | zero => simp at h
    | succ k => simp [main_loop, fetch_source, unrolled]
  | cons f fs ih =>
    intro fuel s h
    cases fuel with
    | zero => simp at h
    | succ k =>
      have hk : fs.length < k := by simpa using h
      by_cases h1 : f.ret < 0
      · by_cases h2 : f.ret = -EINTR
        · rw [main_loop_eintr m k s f fs h1 h2, ih (k + 1) s (by omega)]
          simp [unrolled, if_pos h1, if_pos h2]
        · by_cases h3 : f.errno ≠ ETIMEDOUT
          · simp [main_loop, fetch_source, unrolled, if_pos h1, if_neg h2, if_pos h3]
          · simp [main_loop, fetch_source, unrolled, if_pos h1, if_neg h2, if_neg h3,
              ih k s hk]
      · simp [main_loop, fetch_source, unrolled, if_neg h1, ih k _ hk]

theorem main_eq_unrolled (m : Libm α) (fs : List Fetch) :
    main m fs = some (unrolled m Statics.fresh fs) :=
  main_loop_eq_unrolled m fs (fs.length + 1) Statics.fresh (Nat.lt_succ_self _)

end Generic

end PpsStat

namespace PpsStat

section Generic

variable {α : Type} [Add α] [Sub α] [Mul α] [Div α] [IntCast α]

theorem unrolled_eintr (m : Libm α) (s : Statics α) (f : Fetch) (fs : List Fetch)
    (h2 : f.ret = -EINTR) :
    unrolled m s (f :: fs) = ⟨(unrolled m s fs).stdout, Diag.got_signal :: (unrolled m s fs).stderr,
      (unrolled m s fs).statics, (unrolled m s fs).exited⟩ := by
  have h1 : f.ret < 0 := by rw [h2]; decide
  rw [unrolled, if_pos h1, if_pos h2]

theorem unrolled_fatal (m : Libm α) (s : Statics α) (f : Fetch) (fs : List Fetch)
    (h1 : f.ret < 0) (h2 : f.ret ≠ -EINTR) (h3 : f.errno ≠ ETIMEDOUT) :
    unrolled m s (f :: fs) = ⟨[], [Diag.fetch_error f.ret f.errno], s, true⟩ := by
  rw [unrolled, if_pos h1, if_neg h2, if_pos h3]

theorem unrolled_timeout (m : Libm α) (s : Statics α) (f : Fetch) (fs : List Fetch)
    (h1 : f.ret < 0) (h2 : f.ret ≠ -EINTR) (h3 : f.errno = ETIMEDOUT) :
    unrolled m s (f :: fs) = ⟨(unrolled m s fs).stdout,
      Diag.fetch_error f.ret f.errno :: (unrolled m s fs).stderr,
      (unrolled m s fs).statics, (unrolled m s fs).exited⟩ := by
  rw [unrolled, if_pos h1, if_neg h2, if_neg (not_not.mpr h3)]

theorem unrolled_ok (m : Libm α) (s : Statics α) (f : Fetch) (fs : List Fetch)
    (h1 : 0 ≤ f.ret) :
    unrolled m s (f :: fs) =
      ⟨(fetch_source_stats m s f.assert_timestamp).2.toList ++
          (unrolled m (fetch_source_stats m s f.assert_timestamp).1 fs).stdout,
        (unrolled m (fetch_source_stats m s f.assert_timestamp).1 fs).stderr,
        (unrolled m (fetch_source_stats m s f.assert_timestamp).1 fs).statics,
        (unrolled m (fetch_source_stats m s f.assert_timestamp).1 fs).exited⟩ := by
  rw [unrolled, if_neg (not_lt.mpr h1)]

/-- Fetches that arrive after `exit` are never consumed; before it, the run continues from
the statics reached. -/
theorem unrolled_append (m : Libm α) (pre post : List Fetch) :
    ∀ s : Statics α, unrolled m s (pre ++ post) =
      if (unrolled m s pre).exited then unrolled m s pre
      else ⟨(unrolled m s pre).stdout ++ (unrolled m (unrolled m s pre).statics post).stdout,
            (unrolled m s pre).stderr ++ (unrolled m (unrolled m s pre).statics post).stderr,
            (unrolled m (unrolled m s pre).statics post).statics,
            (unrolled m (unrolled m s pre).statics post).exited⟩ := by
  induction pre with
  | nil => intro s; simp [unrolled]
  | cons f fs ih =>
    intro s
    by_cases h1 : f.ret < 0
    · by_cases h2 : f.ret = -EINTR
      · rw [List.cons_append, unrolled_eintr m s f _ h2, unrolled_eintr m s f _ h2, ih s]
        by_cases hx : (unrolled m s fs).exited = true <;> simp [hx]
      · by_cases h3 : f.errno ≠ ETIMEDOUT
        · rw [List.cons_append, unrolled_fatal m s f _ h1 h2 h3, unrolled_fatal m s f _ h1 h2 h3]
          simp
        · have h3' : f.errno = ETIMEDOUT := not_not.mp h3
          rw [List.cons_append, unrolled_timeout m s f _ h1 h2 h3',
            unrolled_timeout m s f _ h1 h2 h3', ih s]
          by_cases hx : (unrolled m s fs).exited = true <;> simp [hx]
    · rw [List.cons_append, unrolled_ok m s f _ (not_lt.mp h1), unrolled_ok m s f _ (not_lt.mp h1),
        ih (fetch_source_stats m s f.assert_timestamp).1]
      by_cases hx : (unrolled m (fetch_source_stats m s f.assert_timestamp).1 fs).exited = true
        <;> simp [hx]

end Generic

end PpsStat

namespace PpsStat

section Generic

variable {α : Type} [Add α] [Sub α] [Mul α] [Div α] [IntCast α]

theorem stats_of_zero (m : Libm α) (s : Statics α) (ts : Timespec)
    (h1 : s.prev.tv_sec = 0) (h2 : s.prev.tv_nsec = 0) :
    fetch_source_stats m s ts = (⟨ts, s.pps_sum, s.pps_sum_sq, s.count⟩, none) := by
  simp [fetch_source_stats, h1, h2]

theorem stats_of_nonzero (m : Libm α) (s : Statics α) (ts : Timespec)
    (h : s.prev.tv_sec ≠ 0 ∨ s.prev.tv_nsec ≠ 0) :
    fetch_source_stats m s ts =
      (⟨ts, s.pps_sum + (((delta_ns m s.prev ts : Int) : α) * ((1 : Int) : α)
            - ((1000000000 : Int) : α)) / ((1000 : Int) : α),
          s.pps_sum_sq + (((delta_ns m s.prev ts : Int) : α) * ((1 : Int) : α)
            - ((1000000000 : Int) : α)) / ((1000 : Int) : α) *
            ((((delta_ns m s.prev ts : Int) : α) * ((1 : Int) : α)
            - ((1000000000 : Int) : α)) / ((1000 : Int) : α)),
          s.count + 1⟩,
        some ⟨delta_ns m s.prev ts,
          (((delta_ns m s.prev ts : Int) : α) * ((1 : Int) : α)
            - ((1000000000 : Int) : α)) / ((1000 : Int) : α),
          (s.pps_sum + (((delta_ns m s.prev ts : Int) : α) * ((1 : Int) : α)
            - ((1000000000 : Int) : α)) / ((1000 : Int) : α)) / ((s.count + 1 : Int) : α),
          m.sqrt (variance (⟨ts, s.pps_sum + (((delta_ns m s.prev ts : Int) : α) * ((1 : Int) : α)
            - ((1000000000 : Int) : α)) / ((1000 : Int) : α),
          s.pps_sum_sq + (((delta_ns m s.prev ts : Int) : α) * ((1 : Int) : α)
            - ((1000000000 : Int) : α)) / ((1000 : Int) : α) *
            ((((delta_ns m s.prev ts : Int) : α) * ((1 : Int) : α)
            - ((1000000000 : Int) : α)) / ((1000 : Int) : α)),
          s.count + 1⟩ : Statics α))⟩) := by
  rw [fetch_source_stats, if_pos h]

/-- The count grows by one with every pulse delivered after a nonzero `prev`. -/
theorem count_after_pulses (m : Libm α) (ts : List Timespec) :
    ∀ s : Statics α, (s.prev.tv_sec ≠ 0 ∨ s.prev.tv_nsec ≠ 0) →
      (∀ t ∈ ts.dropLast, t.tv_sec ≠ 0 ∨ t.tv_nsec ≠ 0) →
      (unrolled m s (ts.map pulse)).statics.count = s.count + ts.length := by
  induction ts with
  | nil => intro s _ _; simp [unrolled]
  | cons t ts ih =>
    intro s hs hz
    rw [List.map_cons, unrolled_ok m s (pulse t) _ (le_refl _)]
    simp only
    rw [show (pulse t).assert_timestamp = t from rfl, stats_of_nonzero m s t hs]
    cases ts with
    | nil => simp [unrolled]
    | cons u us =>
      rw [ih _ (hz t (by simp [List.dropLast])) (fun x hx => hz x (by simp [List.dropLast, hx]))]
      simp only [List.length_cons]
      push_cast
      ring

/-- Every pulse delivered after a nonzero `prev` prints a report. -/
theorem reports_after_pulses (m : Libm α) (ts : List Timespec) :
    ∀ s : Statics α, (s.prev.tv_sec ≠ 0 ∨ s.prev.tv_nsec ≠ 0) →
      (∀ t ∈ ts.dropLast, t.tv_sec ≠ 0 ∨ t.tv_nsec ≠ 0) →
      (unrolled m s (ts.map pulse)).stdout.length = ts.length := by
  induction ts with
  | nil => intro s _ _; simp [unrolled]
  | cons t ts ih =>
    intro s hs hz
    rw [List.map_cons, unrolled_ok m s (pulse t) _ (le_refl _)]
    simp only
    rw [show (pulse t).assert_timestamp = t from rfl, stats_of_nonzero m s t hs]
    cases ts with
    | nil => simp [unrolled]
    | cons u us =>
      simp only [Option.toList, List.singleton_append, List.length_cons]
      rw [ih _ (hz t (by simp [List.dropLast])) (fun x hx => hz x (by simp [List.dropLast, hx]))]
      simp

/-- From a fresh session, pulses of which none but the last is stamped (0 s, 0 ns) print a
report each, the first one excepted. -/
theorem reports_of_pulses (m : Libm α) (ts : List Timespec)
    (hz : ∀ t ∈ ts.dropLast, t.tv_sec ≠ 0 ∨ t.tv_nsec ≠ 0) :
    (unrolled m Statics.fresh (ts.map pulse)).stdout.length = ts.length - 1 := by
  cases ts with
  | nil => simp [unrolled]
  | cons t ts =>
    rw [List.map_cons, unrolled_ok m _ (pulse t) _ (le_refl _)]
    simp only
    rw [show (pulse t).assert_timestamp = t from rfl, stats_of_zero m Statics.fresh t rfl rfl]
    cases ts with
    | nil => simp [unrolled]
    | cons u us =>
      simp only [Option.toList, List.nil_append]
      rw [reports_after_pulses m (u :: us) _ (hz t (by simp [List.dropLast]))
        (fun x hx => hz x (by simp [List.dropLast, hx]))]
      simp

/-- An interrupted fetch, at a point the process reaches, is not retried: it is logged as
an error and the process exits, whatever fetches would have followed. -/
theorem interrupted_is_fatal (m : Libm α) (pre post : List Fetch)
    (hpre : (main m pre).map Run.exited = some false) :
    ∃ r0 : Run α, main m pre = some r0 ∧
      main m (pre ++ interrupted :: post) =
        some ⟨r0.stdout, r0.stderr ++ [Diag.fetch_error (-1) EINTR], r0.statics, true⟩ := by
  have hx : (unrolled m Statics.fresh pre).exited = false := by
    simpa [main_eq_unrolled] using hpre
  refine ⟨_, main_eq_unrolled m pre, ?_⟩
  rw [main_eq_unrolled, unrolled_append, hx,
    unrolled_fatal m _ interrupted post (by decide) (by decide) (by decide)]
  simp [interrupted]

/-- A run in which every fetch succeeds never exits and writes nothing to standard error. -/
theorem unrolled_pulses_alive (m : Libm α) (ts : List Timespec) :
    ∀ s : Statics α, (unrolled m s (ts.map pulse)).exited = false ∧
      (unrolled m s (ts.map pulse)).stderr = [] := by
  induction ts with
  | nil => intro s; simp [unrolled]
  | cons t ts ih =>
    intro s
    rw [List.map_cons, unrolled_ok m s (pulse t) _ (le_refl _)]
    exact ih _

/-- The statistics block leaves the count or adds one to it. -/
theorem stats_count (m : Libm α) (s : Statics α) (ts : Timespec) :
    (fetch_source_stats m s ts).1.count = s.count ∨
      (fetch_source_stats m s ts).1.count = s.count + 1 := by
  by_cases hz : s.prev.tv_sec ≠ 0 ∨ s.prev.tv_nsec ≠ 0
  · right
    rw [stats_of_nonzero m s ts hz]
  · left
    have hz1 : s.prev.tv_sec = 0 := by
      by_contra hc
      exact hz (Or.inl hc)
    have hz2 : s.prev.tv_nsec = 0 := by
      by_contra hc
      exact hz (Or.inr hc)
    rw [stats_of_zero m s ts hz1 hz2]

/-- No fetch lowers the count, and none raises it by more than one. -/
theorem count_bounds (m : Libm α) (fs : List Fetch) :
    ∀ s : Statics α, s.count ≤ (unrolled m s fs).statics.count ∧
      (unrolled m s fs).statics.count ≤ s.count + fs.length := by
  induction fs with
  | nil => intro s; simp [unrolled]
  | cons f fs ih =>
    intro s
    have hlen : ((f :: fs).length : Int) = (fs.length : Int) + 1 := by simp
    rw [hlen]
    by_cases h1 : f.ret < 0
    · by_cases h2 : f.ret = -EINTR
      · rw [unrolled_eintr m s f fs h2]
        have := ih s
        constructor <;> simp only <;> omega
      · by_cases h3 : f.errno ≠ ETIMEDOUT
        · rw [unrolled_fatal m s f fs h1 h2 h3]
          constructor <;> simp only <;> omega
        · rw [unrolled_timeout m s f fs h1 h2 (not_not.mp h3)]
          have := ih s
          constructor <;> simp only <;> omega
    · rw [unrolled_ok m s f fs (not_lt.mp h1)]
      have h2 := ih (fetch_source_stats m s f.assert_timestamp).1
      have h3 := stats_count m s f.assert_timestamp
      constructor <;> simp only <;> omega

/-- The unbounded count of the model is the `int` of the program: from a fresh session it
stays within `0 .. INT_MAX` as long as fewer than `2 ^ 31` fetches have completed. -/
theorem count_in_int_range (m : Libm α) (fs : List Fetch) (h : fs.length < 2 ^ 31) :
    ∃ r : Run α, main m fs = some r ∧ 0 ≤ r.statics.count ∧ r.statics.count < 2 ^ 31 := by
  refine ⟨_, main_eq_unrolled m fs, ?_, ?_⟩
  · exact (count_bounds m fs Statics.fresh).1
  · have h2 := (count_bounds m fs Statics.fresh).2
    have h3 : (Statics.fresh : Statics α).count = 0 := rfl
    have h4 : ((fs.length : Nat) : Int) < 2 ^ 31 := by exact_mod_cast h
    omega

/-- Claim C4: for every fetch that succeeds (return value not negative) as the first one of a
fresh session, whatever timestamp it delivers, `fetch_source` returns 0 having printed no
report and no diagnostic: count, sum and sum of squares are still zero and the timestamp
delivered is stored in `prev`. -/
theorem first_pulse_seeds_prev (m : Libm α) (f : Fetch) (rest : List Fetch) (hf : 0 ≤ f.ret) :
    fetch_source_stats m Statics.fresh f.assert_timestamp
        = (⟨f.assert_timestamp, ((0 : Int) : α), ((0 : Int) : α), 0⟩, none) ∧
      (fetch_source m Statics.fresh (f :: rest)).ret = some 0 ∧
      (fetch_source m Statics.fresh (f :: rest)).out = none ∧
      (fetch_source m Statics.fresh (f :: rest)).err = [] ∧
      (fetch_source m Statics.fresh (f :: rest)).statics
        = ⟨f.assert_timestamp, ((0 : Int) : α), ((0 : Int) : α), 0⟩ := by
  have h0 : fetch_source_stats m Statics.fresh f.assert_timestamp
      = (⟨f.assert_timestamp, ((0 : Int) : α), ((0 : Int) : α), 0⟩, none) :=
    stats_of_zero m Statics.fresh f.assert_timestamp rfl rfl
  have hn : ¬ f.ret < 0 := not_lt.mpr hf
  refine ⟨h0, ?_, ?_, ?_, ?_⟩ <;> simp [fetch_source, if_neg hn, h0]

/-- Claim C5, amended: after `m ≥ 1` pulses delivered to a fresh session, none of which except
possibly the last carries the timestamp (0 s, 0 ns), the loop of `main` is waiting for the
next pulse and the sample count equals `m - 1`. -/
theorem count_is_pulses_minus_one (m : Libm α) (ts : List Timespec) (hne : ts ≠ [])
    (hz : ∀ t ∈ ts.dropLast, t.tv_sec ≠ 0 ∨ t.tv_nsec ≠ 0) :
    ∃ r : Run α, main m (ts.map pulse) = some r ∧ r.exited = false ∧
      r.statics.count = (ts.length : Int) - 1 := by
  refine ⟨_, main_eq_unrolled m _, ?_, ?_⟩
  · exact (unrolled_pulses_alive m ts _).1
  · cases ts with
    | nil => exact absurd rfl hne
    | cons t ts =>
      rw [List.map_cons, unrolled_ok m _ (pulse t) _ (le_refl _)]
      simp only
      rw [show (pulse t).assert_timestamp = t from rfl, stats_of_zero m Statics.fresh t rfl rfl]
      cases ts with
      | nil => simp [unrolled, Statics.fresh]
      | cons u us =>
        rw [count_after_pulses m (u :: us) _ (hz t (by simp [List.dropLast]))
          (fun x hx => hz x (by simp [List.dropLast, hx]))]
        simp only [List.length_cons, Statics.fresh]
        push_cast
        ring

/-- Claim C8, amended: a fetch that fails with a return value other than `-EINTR`, at a point the
process reaches, is logged; when it leaves `errno` different from `ETIMEDOUT` the process
exits with failure and consumes no later fetch; when it leaves `errno = ETIMEDOUT` the
process does not exit but fetches again, and the run goes on exactly as without the failed
fetch, apart from its line on standard error. -/
theorem fetch_failure_policy (m : Libm α) (pre post : List Fetch) (f : Fetch)
    (h1 : f.ret < 0) (h2 : f.ret ≠ -EINTR)
    (hpre : (main m pre).map Run.exited = some false) :
    (f.errno ≠ ETIMEDOUT →
      ∃ r : Run α, main m (pre ++ f :: post) = some r ∧ main m (pre ++ [f]) = some r ∧
        r.exited = true) ∧
    (f.errno = ETIMEDOUT →
      ∃ r1 r2 : Run α, main m (pre ++ f :: post) = some r1 ∧ main m (pre ++ post) = some r2 ∧
        r1.stdout = r2.stdout ∧ r1.statics = r2.statics ∧ r1.exited = r2.exited ∧
        ∃ a b : List Diag, r2.stderr = a ++ b ∧
          r1.stderr = a ++ Diag.fetch_error f.ret f.errno :: b) := by
  have hx : (unrolled m Statics.fresh pre).exited = false := by
    simpa [main_eq_unrolled] using hpre
  constructor
  · intro h3
    refine ⟨_, main_eq_unrolled m _, ?_, ?_⟩
    · rw [main_eq_unrolled]
      simp [unrolled_append, hx, unrolled_fatal m _ f _ h1 h2 h3]
    · simp [unrolled_append, hx, unrolled_fatal m _ f _ h1 h2 h3]
  · intro h3
    refine ⟨_, _, main_eq_unrolled m _, main_eq_unrolled m _, ?_, ?_, ?_, ?_⟩
    · simp [unrolled_append, hx, unrolled_timeout m _ f _ h1 h2 h3]
    · simp [unrolled_append, hx, unrolled_timeout m _ f _ h1 h2 h3]
    · simp [unrolled_append, hx, unrolled_timeout m _ f _ h1 h2 h3]
    · refine ⟨(unrolled m Statics.fresh pre).stderr,
        (unrolled m (unrolled m Statics.fresh pre).statics post).stderr, ?_, ?_⟩
      · simp [unrolled_append, hx]
      · simp [unrolled_append, hx, unrolled_timeout m _ f _ h1 h2 h3]

/-- The retry of lines 107-110 taken on its own: a fetch whose return value is `-EINTR`,
inserted at a point the process reaches immediately before the fetches `post`, changes
neither the reports printed nor the final statics nor whether the process has exited;
standard error gains exactly one line, the signal notice, at the place of that fetch. -/
theorem eintr_retry_transparent (m : Libm α) (pre post : List Fetch) (e : Fetch)
    (he : e.ret = -EINTR) (hpre : (main m pre).map Run.exited = some false) :
    ∃ r1 r2 : Run α, main m (pre ++ e :: post) = some r1 ∧
      main m (pre ++ post) = some r2 ∧
      r1.stdout = r2.stdout ∧ r1.statics = r2.statics ∧ r1.exited = r2.exited ∧
      ∃ a b : List Diag, r2.stderr = a ++ b ∧ r1.stderr = a ++ Diag.got_signal :: b := by
  have hx : (unrolled m Statics.fresh pre).exited = false := by
    simpa [main_eq_unrolled] using hpre
  refine ⟨_, _, main_eq_unrolled m _, main_eq_unrolled m _, ?_, ?_, ?_, ?_⟩
  · simp [unrolled_append, hx, unrolled_eintr m _ e _ he]
  · simp [unrolled_append, hx, unrolled_eintr m _ e _ he]
  · simp [unrolled_append, hx, unrolled_eintr m _ e _ he]
  · refine ⟨(unrolled m Statics.fresh pre).stderr,
      (unrolled m (unrolled m Statics.fresh pre).statics post).stderr, ?_, ?_⟩
    · simp [unrolled_append, hx]
    · simp [unrolled_append, hx, unrolled_eintr m _ e _ he]

end Generic

end PpsStat

/-! ## Known values of binary64 -/

namespace F64

/-- The `double` nearest to one tenth is `0x3FB999999999999A`. -/
theorem roundNE_tenth :
    roundNE (1 / 10) = fin (3602879701896397 / 36028797018963968) := by
  decide!

/-- Ties go to the even significand: `2 ^ 53 + 1` rounds down, `2 ^ 53 + 3` rounds up. -/
theorem roundNE_ties :
    roundNE 9007199254740993 = fin 9007199254740992 ∧
      roundNE 9007199254740995 = fin 9007199254740996 := by
  constructor <;> decide!

/-- Half of the least subnormal rounds to zero, three halves of it to twice it. -/
theorem roundNE_subnormal :
    roundNE (mkRat 1 (2 ^ 1075)) = fin 0 ∧
      roundNE (mkRat 3 (2 ^ 1075)) = fin (mkRat 1 (2 ^ 1073)) := by
  constructor <;> decide!

/-- The largest finite value is `2 ^ 1024 - 2 ^ 971`; half a unit in the last place above
it the result is infinite. -/
theorem roundNE_overflow :
    roundNE ((overflowBound - 2 ^ 971 : Nat) : Int) = fin ((overflowBound - 2 ^ 971 : Nat) : Int) ∧
      roundNE ((overflowBound - 2 ^ 970 : Nat) : Int) = pinf := by
  constructor <;> decide!

/-- The square root of two is `0x3FF6A09E667F3BCD`, and that of a negative number is NaN. -/
theorem sqrt_values :
    sqrt (fin 2) = fin (6369051672525773 / 4503599627370496) ∧ sqrt (fin (-1)) = nan := by
  constructor <;> decide!

end F64

/-! ## Rounding of integers -/

namespace F64

theorem log2Fuel_le (f : Nat) : ∀ n : Nat, 1 ≤ n → 2 ^ log2Fuel f n ≤ n := by
  induction f with
  | zero => intro n hn; simpa [log2Fuel] using hn
  | succ k ih =>
    intro n hn
    unfold log2Fuel
    split
    · simpa using hn
    · have h2 : 1 ≤ n / 2 := by omega
      have h3 := ih (n / 2) h2
      rw [pow_succ]
      omega

theorem ilog2_one_le (n : Nat) (hn : 1 ≤ n) :
    2 ^ (ilog2 n 1).toNat ≤ n := by
  have hL := log2Fuel_le n n hn
  have h1 : log2Fuel 1 1 = 0 := by simp [log2Fuel]
  unfold ilog2
  simp only [h1, Nat.cast_zero, sub_zero, Nat.cast_nonneg, if_true, Int.toNat_ofNat, one_mul]
  split
  · rename_i hlt
    omega
  · simpa using hL

theorem roundHalfEven_one (n : Nat) : roundHalfEven n 1 = n := by
  simp [roundHalfEven, Nat.mod_one]

theorem roundHalfEven_pos (n d : Nat) (hd : 0 < d) (h : d ≤ n) : 1 ≤ roundHalfEven n d := by
  have hq : 1 ≤ n / d := (Nat.one_le_div_iff hd).mpr h
  unfold roundHalfEven
  simp only
  split
  · exact hq
  · split
    · omega
    · split <;> omega

theorem pack_nonzero (m : Nat) (e : Int) (hm : 1 ≤ m) : IsNonzero (pack false m e) := by
  unfold pack
  by_cases he : 0 ≤ e
  · rw [if_pos he]
    by_cases hv : overflowBound ≤ m * 2 ^ e.toNat
    · left
      rw [if_pos hv]
      rfl
    · right; right
      rw [if_neg hv]
      refine ⟨_, rfl, ?_⟩
      have hpos : 0 < m * 2 ^ e.toNat := Nat.mul_pos hm (by positivity)
      have hcast : (((m * 2 ^ e.toNat : Nat) : Int) : ℚ).num = ((m * 2 ^ e.toNat : Nat) : Int) :=
        Rat.intCast_num _
      simp only [Bool.false_eq_true, if_false]
      rw [hcast]
      omega
  · rw [if_neg he]
    right; right
    refine ⟨_, rfl, ?_⟩
    have hne : mkRat (m : Int) (2 ^ (-e).toNat) ≠ 0 := by
      rw [Rat.mkRat_ne_zero (by positivity)]
      omega
    simp only [Bool.false_eq_true, if_false]
    exact fun h => hne (Rat.zero_iff_num_zero.mpr h)

theorem ofInt_nonzero (z : Int) (hz : 1 ≤ z) : IsNonzero (ofInt z) := by
  unfold ofInt roundNE
  have hnum : ((z : ℚ)).num = z := Rat.intCast_num z
  have hden : ((z : ℚ)).den = 1 := Rat.intCast_den z
  have hn : 1 ≤ z.natAbs := by omega
  rw [if_neg (by rw [hnum]; omega)]
  simp only [hnum, hden, one_mul]
  have hneg : decide (z < 0) = false := by simp; omega
  rw [hneg]
  apply pack_nonzero
  split
  · rename_i hq
    apply roundHalfEven_pos _ _ (by positivity)
    have hle := ilog2_one_le z.natAbs hn
    refine le_trans (Nat.pow_le_pow_right (by norm_num) ?_) hle
    omega
  · rw [roundHalfEven_one]
    exact Nat.mul_pos hn (by positivity)

theorem zero_div_nonzero (x : F64) (hx : IsNonzero x) : F64.div (fin 0) x = fin 0 := by
  rcases hx with rfl | rfl | ⟨v, rfl, hv⟩
  · rfl
  · rfl
  · simp [F64.div, hv, roundNE]

end F64

namespace F64

theorem log2Fuel_lt_of_lt (n k : Nat) (hn : 1 ≤ n) (h : n < 2 ^ k) : log2Fuel n n < k := by
  have h1 := log2Fuel_le n n hn
  have h2 : 2 ^ log2Fuel n n < 2 ^ k := lt_of_le_of_lt h1 h
  exact (Nat.pow_lt_pow_iff_right (by norm_num)).mp h2

theorem ilog2_one_bound (n : Nat) (hn : 1 ≤ n) (h : n < 2 ^ 53) : ilog2 n 1 ≤ 52 := by
  have hL := log2Fuel_lt_of_lt n 53 hn h
  have h1 : log2Fuel 1 1 = 0 := by simp [log2Fuel]
  unfold ilog2
  simp only [h1, Nat.cast_zero, sub_zero, Nat.cast_nonneg, if_true]
  split <;> omega

theorem signed_natAbs (z : Int) :
    (if decide (z < 0) = true then -((z.natAbs : Nat) : Int) else ((z.natAbs : Nat) : Int)) = z := by
  by_cases h : z < 0
  · simp only [h, decide_True, if_true]
    omega
  · simp only [h, decide_False, Bool.false_eq_true, if_false]
    omega

/-- An integer below `2 ^ 53` in absolute value converts to `double` without rounding. -/
theorem ofInt_exact (z : Int) (hz : z.natAbs < 2 ^ 53) : ofInt z = fin (z : ℚ) := by
  by_cases h0 : z = 0
  · subst h0
    simp [ofInt, roundNE]
  · have hnum : ((z : ℚ)).num = z := Rat.intCast_num z
    have hden : ((z : ℚ)).den = 1 := Rat.intCast_den z
    have hn : 1 ≤ z.natAbs := by omega
    have he := ilog2_one_bound z.natAbs hn hz
    unfold ofInt roundNE
    rw [if_neg (by rw [hnum]; exact h0)]
    simp only [hnum, hden, one_mul]
    by_cases hq : 0 ≤ max (ilog2 z.natAbs 1) (-1022) - 52
    · have hq0 : max (ilog2 z.natAbs 1) (-1022) - 52 = 0 := by omega
      rw [hq0]
      simp only [le_refl, if_true, Int.toNat_zero, pow_zero, roundHalfEven_one]
      unfold pack
      simp only [le_refl, if_true, Int.toNat_zero, pow_zero, mul_one]
      have hb : ¬ overflowBound ≤ z.natAbs := by
        have h53 : (2 : Nat) ^ 53 ≤ overflowBound := by decide!
        omega
      rw [if_neg hb]
      congr 1
      have := signed_natAbs z
      rw [← Int.cast_neg]
      split <;> rename_i hd <;> simp only [hd, if_true, Bool.false_eq_true, if_false] at this
      · exact_mod_cast congrArg (Int.cast : Int → ℚ) this
      · exact_mod_cast congrArg (Int.cast : Int → ℚ) this
    · rw [if_neg hq, roundHalfEven_one]
      unfold pack
      rw [if_neg hq]
      congr 1
      have hs := signed_natAbs z
      have hm : (if decide (z < 0) = true
            then -((z.natAbs * 2 ^ (-(max (ilog2 z.natAbs 1) (-1022) - 52)).toNat : Nat) : Int)
            else ((z.natAbs * 2 ^ (-(max (ilog2 z.natAbs 1) (-1022) - 52)).toNat : Nat) : Int))
          = z * ((2 ^ (-(max (ilog2 z.natAbs 1) (-1022) - 52)).toNat : Nat) : Int) := by
        by_cases h : z < 0
        · simp only [h, decide_True, if_true] at hs ⊢
          push_cast
          rw [abs_of_neg h]
          ring
        · simp only [h, decide_False, Bool.false_eq_true, if_false] at hs ⊢
          push_cast
          rw [abs_of_nonneg (not_lt.mp h)]
      rw [hm]
      have hpos : (2 ^ (-(max (ilog2 z.natAbs 1) (-1022) - 52)).toNat : Nat) ≠ 0 := by positivity
      have := @Rat.mkRat_mul_right z 1 _ hpos
      rw [one_mul] at this
      rw [this, Rat.mkRat_one]

end F64

namespace PpsStat

/-- While the product of the difference of the seconds with `10 ^ 9`, the difference of the
nanoseconds and their sum all stay below `2 ^ 53` in absolute value, no operation of lines
118-119 rounds and `delta` is the exact difference in nanoseconds. -/
theorem delta_exact_in_range (prev cur : Timespec)
    (h1 : ((cur.tv_sec - prev.tv_sec) * 10 ^ 9).natAbs < 2 ^ 53)
    (h2 : (cur.tv_nsec - prev.tv_nsec).natAbs < 2 ^ 53)
    (h3 : ((cur.tv_sec - prev.tv_sec) * 10 ^ 9 + (cur.tv_nsec - prev.tv_nsec)).natAbs < 2 ^ 53) :
    delta_ns libm64 prev cur
      = (cur.tv_sec - prev.tv_sec) * 10 ^ 9 + (cur.tv_nsec - prev.tv_nsec) := by
  have h0 : (cur.tv_sec - prev.tv_sec).natAbs < 2 ^ 53 := by
    have : (cur.tv_sec - prev.tv_sec).natAbs ≤ ((cur.tv_sec - prev.tv_sec) * 10 ^ 9).natAbs := by
      rw [Int.natAbs_mul]
      exact Nat.le_mul_of_pos_right _ (by decide)
    omega
  have e1 : ((cur.tv_sec - prev.tv_sec : Int) : F64) = F64.fin ((cur.tv_sec - prev.tv_sec : Int) : ℚ) :=
    F64.ofInt_exact _ h0
  have e2 : ((1000000000 : Int) : F64) = F64.fin ((1000000000 : Int) : ℚ) :=
    F64.ofInt_exact _ (by decide)
  have e3 : ((cur.tv_nsec - prev.tv_nsec : Int) : F64) = F64.fin ((cur.tv_nsec - prev.tv_nsec : Int) : ℚ) :=
    F64.ofInt_exact _ h2
  have e4 : F64.fin ((cur.tv_sec - prev.tv_sec : Int) : ℚ) * F64.fin ((1000000000 : Int) : ℚ)
      = F64.fin (((cur.tv_sec - prev.tv_sec) * 10 ^ 9 : Int) : ℚ) := by
    have := F64.ofInt_exact _ h1
    rw [← this]
    show F64.roundNE _ = F64.roundNE _
    congr 1
    push_cast
    ring
  have e5 : F64.fin (((cur.tv_sec - prev.tv_sec) * 10 ^ 9 : Int) : ℚ)
        + F64.fin ((cur.tv_nsec - prev.tv_nsec : Int) : ℚ)
      = F64.fin (((cur.tv_sec - prev.tv_sec) * 10 ^ 9 + (cur.tv_nsec - prev.tv_nsec) : Int) : ℚ) := by
    have := F64.ofInt_exact _ h3
    rw [← this]
    show F64.roundNE _ = F64.roundNE _
    congr 1
    push_cast
    ring
  unfold delta_ns
  rw [e1, e2, e3, e4, e5]
  show F64.toLongLong (F64.fin _) = _
  unfold F64.toLongLong
  simp only [Rat.intCast_num, Rat.intCast_den, Nat.cast_one, Int.tdiv_one]
  rw [if_pos]
  constructor <;> omega

/-- An instance: a pulse 999001500 ns after the one before. -/
theorem delta_exact_in_range_witness :
    delta_ns libm64 ⟨1700000000, 999999000⟩ ⟨1700000001, 500⟩
      = (1700000001 - 1700000000) * 10 ^ 9 + (500 - 999999000) :=
  delta_exact_in_range ⟨1700000000, 999999000⟩ ⟨1700000001, 500⟩
    (by decide) (by decide) (by decide)

end PpsStat

/-! ## Runs in binary64 -/

namespace PpsStat

theorem zero_div_count (c : Int) (hc : 0 ≤ c) :
    (F64.fin 0 : F64) / (((c + 1 : Int)) : F64) = F64.fin 0 :=
  F64.zero_div_nonzero _ (F64.ofInt_nonzero (c + 1) (by omega))

/-- One pulse exactly one second after a nonzero `prev`, the sums being zero. -/
theorem zero_jitter_step (s ns c : Int) (hc : 0 ≤ c) (hnz : s ≠ 0 ∨ ns ≠ 0) :
    fetch_source_stats libm64 ⟨⟨s, ns⟩, F64.fin 0, F64.fin 0, c⟩ ⟨s + 1, ns⟩ =
      (⟨⟨s + 1, ns⟩, F64.fin 0, F64.fin 0, c + 1⟩,
        some ⟨1000000000, F64.fin 0, F64.fin 0, F64.fin 0⟩) := by
  have hd : delta_ns libm64 ⟨s, ns⟩ ⟨s + 1, ns⟩ = 1000000000 := by
    unfold delta_ns
    simp only [add_sub_cancel_left, sub_self]
    decide!
  have hp : (((1000000000 : Int) : F64) * ((1 : Int) : F64) - ((1000000000 : Int) : F64))
      / ((1000 : Int) : F64) = F64.fin 0 := by decide!
  have ha : (F64.fin 0 : F64) + F64.fin 0 = F64.fin 0 := by decide!
  have hm : (F64.fin 0 : F64) * F64.fin 0 = F64.fin 0 := by decide!
  have hs : (F64.fin 0 : F64) - F64.fin 0 = F64.fin 0 := by decide!
  have hq : libm64.sqrt (F64.fin 0) = F64.fin 0 := by decide!
  have hdiv := zero_div_count c hc
  rw [stats_of_nonzero libm64 _ _ hnz]
  simp only [hd, hp, ha, hm, variance, hdiv, hs, hq]

end PpsStat

namespace PpsStat

theorem fresh64 : (Statics.fresh : Statics F64) = ⟨⟨0, 0⟩, F64.fin 0, F64.fin 0, 0⟩ := by decide!

/-- The run of `n` further pulses one second apart after a nonzero `prev`, sums zero. -/
theorem zero_jitter_run (ns : Int) (n : Nat) :
    ∀ s c : Int, 0 ≤ c → (∀ i : Nat, i < n → s + i ≠ 0 ∨ ns ≠ 0) →
      unrolled libm64 ⟨⟨s, ns⟩, F64.fin 0, F64.fin 0, c⟩ ((ticks (s + 1) ns n).map pulse) =
        ⟨List.replicate n ⟨1000000000, F64.fin 0, F64.fin 0, F64.fin 0⟩, [],
          ⟨⟨s + n, ns⟩, F64.fin 0, F64.fin 0, c + n⟩, false⟩ := by
  induction n with
  | zero => intro s c _ _; simp [ticks, unrolled]
  | succ n ih =>
    intro s c hc hz
    have h0 : s ≠ 0 ∨ ns ≠ 0 := by simpa using hz 0 (Nat.succ_pos n)
    rw [ticks, List.map_cons, unrolled_ok libm64 _ (pulse ⟨s + 1, ns⟩) _ (le_refl _)]
    rw [show (pulse ⟨s + 1, ns⟩).assert_timestamp = ⟨s + 1, ns⟩ from rfl,
      zero_jitter_step s ns c hc h0]
    simp only
    rw [ih (s + 1) (c + 1) (by omega) (fun i hi => by
      have := hz (i + 1) (by omega)
      push_cast at this
      rwa [add_assoc, add_comm 1 (i : Int)])]
    simp only [Option.toList, List.singleton_append, List.replicate_succ, Nat.cast_add,
      Nat.cast_one, add_assoc, add_comm 1 (n : Int)]

/-- Claim C3, amended: for every sequence of `n ≥ 2` timestamps exactly one second apart, none
of which before the last is (0 s, 0 ns), delivered to a fresh session, the program prints
`n - 1` reports, every one with delta 1000000000 ns, deviation 0, running mean 0 and
running standard deviation 0, and is then waiting with the sums at zero and count `n - 1`. -/
theorem zero_jitter_reports (s ns : Int) (n : Nat) (hn : 2 ≤ n)
    (hz : ∀ i : Nat, i + 1 < n → s + i ≠ 0 ∨ ns ≠ 0) :
    main libm64 ((ticks s ns n).map pulse) =
      some ⟨List.replicate (n - 1) ⟨1000000000, F64.fin 0, F64.fin 0, F64.fin 0⟩, [],
        ⟨⟨s + n - 1, ns⟩, F64.fin 0, F64.fin 0, n - 1⟩, false⟩ := by
  obtain ⟨k, rfl⟩ : ∃ k, n = k + 1 := ⟨n - 1, by omega⟩
  rw [main_eq_unrolled, ticks, List.map_cons,
    unrolled_ok libm64 _ (pulse ⟨s, ns⟩) _ (le_refl _),
    show (pulse ⟨s, ns⟩).assert_timestamp = ⟨s, ns⟩ from rfl,
    stats_of_zero libm64 Statics.fresh ⟨s, ns⟩ rfl rfl]
  simp only [fresh64]
  rw [zero_jitter_run ns k s 0 (le_refl _) (fun i hi => hz i (by omega))]
  simp
  omega

/-- Witness of claim C3, amended: three pulses from (5 s, 7 ns). -/
theorem zero_jitter_reports_witness :
    main libm64 ((ticks 5 7 3).map pulse) =
      some ⟨List.replicate (3 - 1) ⟨1000000000, F64.fin 0, F64.fin 0, F64.fin 0⟩, [],
        ⟨⟨5 + (3 : Nat) - 1, 7⟩, F64.fin 0, F64.fin 0, (3 : Nat) - 1⟩, false⟩ :=
  zero_jitter_reports 5 7 3 (by decide) (fun i _ => Or.inr (by decide))

/-- Claim C3 as stated fails when the first timestamp is (0 s, 0 ns): of two pulses one second
apart, at 0 s and at 1 s, none is reported, where the claim expects one report. -/
theorem zero_jitter_from_epoch :
    main libm64 ((ticks 0 0 2).map pulse) =
      some ⟨[], [], ⟨⟨1, 0⟩, F64.fin 0, F64.fin 0, 0⟩, false⟩ ∧
    List.replicate (2 - 1) (⟨1000000000, F64.fin 0, F64.fin 0, F64.fin 0⟩ : Report F64) ≠ [] := by
  constructor
  · decide!
  · decide

end PpsStat

namespace PpsStat

section Generic

variable {α : Type} [Add α] [Sub α] [Mul α] [Div α] [IntCast α]

theorem stats_eq_accumulate (m : Libm α) (s : Statics α) (ts : Timespec)
    (h : s.prev.tv_sec ≠ 0 ∨ s.prev.tv_nsec ≠ 0) :
    fetch_source_stats m s ts =
      (⟨ts, (accumulate m s.pps_sum s.pps_sum_sq s.count (delta_ns m s.prev ts)).1.1,
          (accumulate m s.pps_sum s.pps_sum_sq s.count (delta_ns m s.prev ts)).1.2.1,
          (accumulate m s.pps_sum s.pps_sum_sq s.count (delta_ns m s.prev ts)).1.2.2⟩,
        some (accumulate m s.pps_sum s.pps_sum_sq s.count (delta_ns m s.prev ts)).2) := by
  rw [stats_of_nonzero m s ts h]
  rfl

end Generic

/-- Claim C2, amended: from a fresh session, the three timestamps (s, 0 ns), (s + 1 s, 10000 ns),
(s + 2 s, 0 ns) with `s` not zero produce exactly two reports: delta 1000010000 ns,
deviation 10, mean 10, std 0, and then delta 999990000 ns, deviation -10, mean 0, std 10. -/
theorem late_then_on_time (s : Int) (hs : s ≠ 0) :
    main libm64 [pulse ⟨s, 0⟩, pulse ⟨s + 1, 10000⟩, pulse ⟨s + 2, 0⟩] =
      some ⟨[⟨1000010000, F64.fin 10, F64.fin 10, F64.fin 0⟩,
             ⟨999990000, F64.fin (-10), F64.fin 0, F64.fin 10⟩], [],
        ⟨⟨s + 2, 0⟩, F64.fin 0, F64.fin 200, 2⟩, false⟩ := by
  have hd1 : delta_ns libm64 ⟨s, 0⟩ ⟨s + 1, 10000⟩ = 1000010000 := by
    unfold delta_ns
    simp only [add_sub_cancel_left, sub_zero]
    decide!
  have hd2 : delta_ns libm64 ⟨s + 1, 10000⟩ ⟨s + 2, 0⟩ = 999990000 := by
    unfold delta_ns
    have : s + 2 - (s + 1) = 1 := by ring
    simp only [this, zero_sub]
    decide!
  have ha1 : accumulate libm64 (F64.fin 0) (F64.fin 0) 0 1000010000 =
      ((F64.fin 10, F64.fin 100, 1), ⟨1000010000, F64.fin 10, F64.fin 10, F64.fin 0⟩) := by
    decide!
  have ha2 : accumulate libm64 (F64.fin 10) (F64.fin 100) 1 999990000 =
      ((F64.fin 0, F64.fin 200, 2), ⟨999990000, F64.fin (-10), F64.fin 0, F64.fin 10⟩) := by
    decide!
  rw [main_eq_unrolled, unrolled_ok libm64 _ (pulse ⟨s, 0⟩) _ (le_refl _),
    show (pulse ⟨s, 0⟩).assert_timestamp = ⟨s, 0⟩ from rfl,
    stats_of_zero libm64 Statics.fresh ⟨s, 0⟩ rfl rfl]
  simp only [fresh64]
  rw [unrolled_ok libm64 _ (pulse ⟨s + 1, 10000⟩) _ (le_refl _),
    show (pulse ⟨s + 1, 10000⟩).assert_timestamp = ⟨s + 1, 10000⟩ from rfl,
    stats_eq_accumulate libm64 _ _ (Or.inl hs)]
  simp only [hd1, ha1]
  rw [unrolled_ok libm64 _ (pulse ⟨s + 2, 0⟩) _ (le_refl _),
    show (pulse ⟨s + 2, 0⟩).assert_timestamp = ⟨s + 2, 0⟩ from rfl,
    stats_eq_accumulate libm64 _ _ (Or.inr (show (10000 : Int) ≠ 0 by decide))]
  simp only [hd2, ha2]
  simp [unrolled]

/-- Witness of claim C2, amended: the scenario started at 1 s. -/
theorem late_then_on_time_witness :
    main libm64 [pulse ⟨1, 0⟩, pulse ⟨1 + 1, 10000⟩, pulse ⟨1 + 2, 0⟩] =
      some ⟨[⟨1000010000, F64.fin 10, F64.fin 10, F64.fin 0⟩,
             ⟨999990000, F64.fin (-10), F64.fin 0, F64.fin 10⟩], [],
        ⟨⟨1 + 2, 0⟩, F64.fin 0, F64.fin 200, 2⟩, false⟩ :=
  late_then_on_time 1 (by decide)

/-- Claim C2 as stated fails: delivered to a fresh session, the timestamps (0 s, 0 ns),
(1 s, 10000 ns), (2 s, 0 ns) produce one report, not two; the first timestamp equals the
initial value of `prev`, so the second pulse is taken for the first. -/
theorem late_then_on_time_from_epoch :
    main libm64 [pulse ⟨0, 0⟩, pulse ⟨1, 10000⟩, pulse ⟨2, 0⟩] =
      some ⟨[⟨999990000, F64.fin (-10), F64.fin (-10), F64.fin 0⟩], [],
        ⟨⟨2, 0⟩, F64.fin (-10), F64.fin 100, 1⟩, false⟩ := by
  decide!

/-- Claim C5 as stated fails: after the two pulses (0 s, 0 ns) and (1 s, 0 ns) the count is 0,
not 1. -/
theorem count_after_epoch_pulse :
    (main libm64 [pulse ⟨0, 0⟩, pulse ⟨1, 0⟩]).map (fun r => r.statics.count) = some 0 ∧
      (([pulse ⟨0, 0⟩, pulse ⟨1, 0⟩] : List Fetch).length : Int) - 1 = 1 := by
  constructor
  · decide!
  · decide

/-- Witness of claim C5, amended: three pulses, the last one stamped (0 s, 0 ns). -/
theorem count_is_pulses_minus_one_witness :
    ∃ r : Run F64, main libm64 (([⟨3, 0⟩, ⟨4, 5⟩, ⟨0, 0⟩] : List Timespec).map pulse) = some r ∧
      r.exited = false ∧
      r.statics.count = ((([⟨3, 0⟩, ⟨4, 5⟩, ⟨0, 0⟩] : List Timespec).length : Nat) : Int) - 1 :=
  count_is_pulses_minus_one libm64 [⟨3, 0⟩, ⟨4, 5⟩, ⟨0, 0⟩] (by decide) (by decide)

/-- Witness of claim C4: the first pulse may even carry the timestamp (0 s, 0 ns). -/
theorem first_pulse_seeds_prev_witness :
    fetch_source_stats libm64 Statics.fresh (pulse ⟨0, 0⟩).assert_timestamp
        = (⟨(pulse ⟨0, 0⟩).assert_timestamp, ((0 : Int) : F64), ((0 : Int) : F64), 0⟩, none) ∧
      (fetch_source libm64 Statics.fresh (pulse ⟨0, 0⟩ :: [pulse ⟨1, 0⟩])).ret = some 0 ∧
      (fetch_source libm64 Statics.fresh (pulse ⟨0, 0⟩ :: [pulse ⟨1, 0⟩])).out = none ∧
      (fetch_source libm64 Statics.fresh (pulse ⟨0, 0⟩ :: [pulse ⟨1, 0⟩])).err = [] ∧
      (fetch_source libm64 Statics.fresh (pulse ⟨0, 0⟩ :: [pulse ⟨1, 0⟩])).statics
        = ⟨(pulse ⟨0, 0⟩).assert_timestamp, ((0 : Int) : F64), ((0 : Int) : F64), 0⟩ :=
  first_pulse_seeds_prev libm64 (pulse ⟨0, 0⟩) [pulse ⟨1, 0⟩] (by decide)

/-- Claim C6, amended: the report of the statistics step always carries `sqrt` of the variance
expression, unclamped; whenever that expression has a negative value the standard deviation
reported is the NaN returned by `sqrt`, not zero. -/
theorem std_is_sqrt_of_variance (s s1 : Statics F64) (ts : Timespec) (rep : Report F64)
    (h : fetch_source_stats libm64 s ts = (s1, some rep)) :
    rep.std = F64.sqrt (variance s1) ∧
      ∀ v : ℚ, variance s1 = F64.fin v → v < 0 → rep.std = F64.nan ∧ rep.std ≠ F64.fin 0 := by
  by_cases hz : s.prev.tv_sec ≠ 0 ∨ s.prev.tv_nsec ≠ 0
  · rw [stats_of_nonzero libm64 s ts hz] at h
    have h1 := (Prod.mk.inj h).1
    have h2 := Option.some.inj (Prod.mk.inj h).2
    have hstd : rep.std = F64.sqrt (variance s1) := by
      rw [← h2, ← h1]
      rfl
    refine ⟨hstd, fun v hv hneg => ?_⟩
    have hnum : v.num < 0 := Rat.num_neg.mpr hneg
    have : rep.std = F64.nan := by
      rw [hstd, hv]
      simp [F64.sqrt, hnum]
    rw [this]
    exact ⟨rfl, by decide⟩
  · have hz1 : s.prev.tv_sec = 0 := by
      by_contra hc
      exact hz (Or.inl hc)
    have hz2 : s.prev.tv_nsec = 0 := by
      by_contra hc
      exact hz (Or.inr hc)
    rw [stats_of_zero libm64 s ts hz1 hz2] at h
    exact absurd (Prod.mk.inj h).2 (by simp)

/-- Witness of claim C6, amended: the third report of pulses that are each 3 ns late. -/
theorem std_is_sqrt_of_variance_witness :
    (⟨1000000003, F64.fin (3458764513820541 / 1152921504606846976),
        F64.fin (6917529027641083 / 2305843009213693952), F64.nan⟩ : Report F64).std
      = F64.sqrt (variance (⟨⟨4, 9⟩, F64.fin (1297036692682703 / 144115188075855872),
          F64.fin (3984496719921263 / 147573952589676412928), 3⟩ : Statics F64)) ∧
    ∀ v : ℚ, variance (⟨⟨4, 9⟩, F64.fin (1297036692682703 / 144115188075855872),
          F64.fin (3984496719921263 / 147573952589676412928), 3⟩ : Statics F64) = F64.fin v →
      v < 0 →
      (⟨1000000003, F64.fin (3458764513820541 / 1152921504606846976),
        F64.fin (6917529027641083 / 2305843009213693952), F64.nan⟩ : Report F64).std = F64.nan ∧
      (⟨1000000003, F64.fin (3458764513820541 / 1152921504606846976),
        F64.fin (6917529027641083 / 2305843009213693952), F64.nan⟩ : Report F64).std
        ≠ F64.fin 0 :=
  std_is_sqrt_of_variance
    ⟨⟨3, 6⟩, F64.fin (3458764513820541 / 576460752303423488),
      F64.fin (5312662293228351 / 295147905179352825856), 2⟩
    ⟨⟨4, 9⟩, F64.fin (1297036692682703 / 144115188075855872),
      F64.fin (3984496719921263 / 147573952589676412928), 3⟩
    ⟨4, 9⟩
    ⟨1000000003, F64.fin (3458764513820541 / 1152921504606846976),
      F64.fin (6917529027641083 / 2305843009213693952), F64.nan⟩
    (by decide!)

/-- Claim C6 as stated fails: four pulses, each 3 ns later than a second after the one before,
give with the third report a variance expression of `-2 ^ -68`, and the standard deviation
reported is NaN, not 0. -/
theorem negative_variance_gives_nan :
    (main libm64 [pulse ⟨1, 0⟩, pulse ⟨2, 3⟩, pulse ⟨3, 6⟩, pulse ⟨4, 9⟩]).map
        (fun r => (variance r.statics, r.stdout.map Report.std)) =
      some (F64.fin (-1 / 295147905179352825856), [F64.fin 0, F64.fin 0, F64.nan]) := by
  decide!

/-- Claim C8 as stated fails: a fetch that fails with return value -1 and `errno = ETIMEDOUT`
does not end the process; the loop fetches again and the next pulse is reported. -/
theorem timeout_is_not_fatal :
    main libm64 [pulse ⟨1, 0⟩, ⟨-1, ETIMEDOUT, ⟨0, 0⟩⟩, pulse ⟨2, 0⟩] =
      some ⟨[⟨1000000000, F64.fin 0, F64.fin 0, F64.fin 0⟩],
        [Diag.fetch_error (-1) ETIMEDOUT], ⟨⟨2, 0⟩, F64.fin 0, F64.fin 0, 1⟩, false⟩ := by
  decide!

/-- Claim C9 fails on the code: with `prev` = (10 s, 0 ns) and the next timestamp
(1700000010 s, 1 ns) the delta printed is 1700000000000000000, while the exact difference
in nanoseconds is 1700000000000000001 (which fits in 64 bits). -/
theorem delta_rounded_in_double :
    delta_ns libm64 ⟨10, 0⟩ ⟨1700000010, 1⟩ = 1700000000000000000 ∧
    (main libm64 [pulse ⟨10, 0⟩, pulse ⟨1700000010, 1⟩]).map
        (fun r => r.stdout.map Report.delta) = some [1700000000000000000] ∧
    ((1700000010 - 10) * 10 ^ 9 + (1 - 0) : Int) = 1700000000000000001 ∧
    (1700000000000000001 : Int) < 2 ^ 63 := by
  refine ⟨by decide!, by decide!, by decide, by decide⟩

end PpsStat

namespace PpsStat

/-- An instance: the second fetch of a run of three pulses returns `-EINTR`. -/
theorem eintr_retry_transparent_instance :
    (⟨-4, 4, ⟨0, 0⟩⟩ : Fetch).ret = -EINTR ∧
    (main libm64 [pulse ⟨5, 0⟩]).map Run.exited = some false ∧
    ∃ r1 r2 : Run F64,
      main libm64 ([pulse ⟨5, 0⟩] ++ (⟨-4, 4, ⟨0, 0⟩⟩ : Fetch) :: [pulse ⟨6, 7⟩, pulse ⟨7, 0⟩])
        = some r1 ∧
      main libm64 ([pulse ⟨5, 0⟩] ++ [pulse ⟨6, 7⟩, pulse ⟨7, 0⟩]) = some r2 ∧
      r1.stdout = r2.stdout ∧ r1.statics = r2.statics ∧ r1.exited = r2.exited ∧
      ∃ a b : List Diag, r2.stderr = a ++ b ∧ r1.stderr = a ++ Diag.got_signal :: b :=
  ⟨by decide!, by decide!,
    eintr_retry_transparent libm64 [pulse ⟨5, 0⟩] [pulse ⟨6, 7⟩, pulse ⟨7, 0⟩] ⟨-4, 4, ⟨0, 0⟩⟩
      (by decide!) (by decide!)⟩

/-- Claim C7 fails on the code: line 107 compares the return value with `-EINTR`, which an
interrupted fetch (return value -1, `errno = EINTR`) does not have. One interrupted fetch
before the second of three pulses one second apart is not retried: the process logs an
error and exits having printed no report, where the same pulses without the interruption
give two reports and a process still running. -/
theorem interrupted_fetch_exits :
    main libm64 [pulse ⟨1, 0⟩, interrupted, pulse ⟨2, 0⟩, pulse ⟨3, 0⟩] =
      some ⟨[], [Diag.fetch_error (-1) EINTR], ⟨⟨1, 0⟩, F64.fin 0, F64.fin 0, 0⟩, true⟩ ∧
    main libm64 [pulse ⟨1, 0⟩, pulse ⟨2, 0⟩, pulse ⟨3, 0⟩] =
      some ⟨[⟨1000000000, F64.fin 0, F64.fin 0, F64.fin 0⟩,
             ⟨1000000000, F64.fin 0, F64.fin 0, F64.fin 0⟩], [],
        ⟨⟨3, 0⟩, F64.fin 0, F64.fin 0, 2⟩, false⟩ := by
  constructor <;> decide!

/-- Witness of claim C8, amended: an input/output error (`errno = 5`) after one pulse. -/
theorem fetch_failure_policy_witness :
    ((⟨-1, 5, ⟨0, 0⟩⟩ : Fetch).errno ≠ ETIMEDOUT →
      ∃ r : Run F64, main libm64 ([pulse ⟨1, 0⟩] ++ (⟨-1, 5, ⟨0, 0⟩⟩ : Fetch) :: [pulse ⟨2, 0⟩])
          = some r ∧
        main libm64 ([pulse ⟨1, 0⟩] ++ [(⟨-1, 5, ⟨0, 0⟩⟩ : Fetch)]) = some r ∧
        r.exited = true) ∧
    ((⟨-1, 5, ⟨0, 0⟩⟩ : Fetch).errno = ETIMEDOUT →
      ∃ r1 r2 : Run F64,
        main libm64 ([pulse ⟨1, 0⟩] ++ (⟨-1, 5, ⟨0, 0⟩⟩ : Fetch) :: [pulse ⟨2, 0⟩]) = some r1 ∧
        main libm64 ([pulse ⟨1, 0⟩] ++ [pulse ⟨2, 0⟩]) = some r2 ∧
        r1.stdout = r2.stdout ∧ r1.statics = r2.statics ∧ r1.exited = r2.exited ∧
        ∃ a b : List Diag, r2.stderr = a ++ b ∧
          r1.stderr = a ++ Diag.fetch_error (⟨-1, 5, ⟨0, 0⟩⟩ : Fetch).ret
            (⟨-1, 5, ⟨0, 0⟩⟩ : Fetch).errno :: b) :=
  fetch_failure_policy libm64 [pulse ⟨1, 0⟩] [pulse ⟨2, 0⟩] ⟨-1, 5, ⟨0, 0⟩⟩
    (by decide!) (by decide!) (by decide!)

end PpsStat

/-! ## Runs in exact arithmetic -/

namespace PpsStat

theorem sum_sq_dev (l : List ℝ) (μ : ℝ) :
    (l.map (fun d => (d - μ) ^ 2)).sum =
      (l.map (fun d => d * d)).sum - 2 * μ * l.sum + (l.length : ℝ) * μ ^ 2 := by
  induction l with
  | nil => simp
  | cons a l ih =>
    simp only [List.map_cons, List.sum_cons, List.length_cons, ih]
    push_cast
    ring

/-- The sum-of-squares expression of line 126 is the population variance, in exact
arithmetic. -/
theorem variance_eq_spec (s : Statics ℝ) (l : List ℝ) (hl : l ≠ []) (hg : Accumulated s l) :
    variance s = pop_variance_spec l ∧ s.pps_sum / ((s.count : Int) : ℝ) = mean_spec l := by
  obtain ⟨hc, h1, h2⟩ := hg
  have hn : (l.length : ℝ) ≠ 0 := by
    have : l.length ≠ 0 := fun h => hl (List.length_eq_zero.mp h)
    exact_mod_cast this
  have hcast : ((s.count : Int) : ℝ) = (l.length : ℝ) := by rw [hc]; simp
  constructor
  · unfold variance pop_variance_spec mean_spec
    rw [sum_sq_dev, hcast, h1, h2]
    field_simp
    ring
  · unfold mean_spec
    rw [hcast, h1]

theorem sum_sq_nonneg (l : List ℝ) (μ : ℝ) : 0 ≤ (l.map (fun d => (d - μ) ^ 2)).sum := by
  apply List.sum_nonneg
  intro x hx
  obtain ⟨d, _, rfl⟩ := List.mem_map.mp hx
  positivity

theorem sum_sq_eq_zero (l : List ℝ) (μ : ℝ) :
    (l.map (fun d => (d - μ) ^ 2)).sum = 0 ↔ ∀ d ∈ l, d = μ := by
  induction l with
  | nil => simp
  | cons a l ih =>
    simp only [List.map_cons, List.sum_cons, List.mem_cons, forall_eq_or_imp]
    have h1 : 0 ≤ (a - μ) ^ 2 := by positivity
    have h2 := sum_sq_nonneg l μ
    constructor
    · intro h
      have ha : (a - μ) ^ 2 = 0 := by linarith
      have hl : (l.map (fun d => (d - μ) ^ 2)).sum = 0 := by linarith
      refine ⟨?_, ih.mp hl⟩
      have := pow_eq_zero_iff (two_ne_zero) |>.mp ha
      linarith
    · rintro ⟨ha, hl⟩
      rw [ih.mpr hl, ha]
      simp

theorem sum_of_all_equal (l : List ℝ) (a : ℝ) (h : ∀ d ∈ l, d = a) :
    l.sum = (l.length : ℝ) * a := by
  induction l with
  | nil => simp
  | cons b l ih =>
    simp only [List.mem_cons, forall_eq_or_imp] at h
    simp only [List.sum_cons, List.length_cons, ih h.2, h.1]
    push_cast
    ring

theorem pop_variance_nonneg (l : List ℝ) : 0 ≤ pop_variance_spec l := by
  unfold pop_variance_spec
  exact mul_nonneg (by positivity) (sum_sq_nonneg l _)

theorem pop_variance_eq_zero_iff (l : List ℝ) (hl : l ≠ []) :
    pop_variance_spec l = 0 ↔ ∀ a ∈ l, ∀ b ∈ l, a = b := by
  have hlen : l.length ≠ 0 := fun h => hl (List.length_eq_zero.mp h)
  have hn : (0 : ℝ) < (l.length : ℝ) := by exact_mod_cast Nat.pos_of_ne_zero hlen
  unfold pop_variance_spec
  constructor
  · intro h
    have h0 : (l.map (fun d => (d - mean_spec l) ^ 2)).sum = 0 := by
      rcases mul_eq_zero.mp h with h1 | h1
      · exact absurd h1 (by positivity)
      · exact h1
    have hall := (sum_sq_eq_zero l _).mp h0
    intro a ha b hb
    rw [hall a ha, hall b hb]
  · intro h
    obtain ⟨a, ha⟩ := List.exists_mem_of_ne_nil l hl
    have hall : ∀ d ∈ l, d = a := fun d hd => h d hd a ha
    have hmean : mean_spec l = a := by
      unfold mean_spec
      rw [sum_of_all_equal l a hall]
      field_simp
    rw [hmean, (sum_sq_eq_zero l a).mpr hall]
    simp

theorem accumulated_fresh : Accumulated (Statics.fresh : Statics ℝ) [] := by
  simp [Accumulated, Statics.fresh]

/-- The statistics block in exact arithmetic: it either prints nothing and keeps the sums,
or appends one deviation `d` and prints with it the mean and the population standard
deviation of all the deviations so far. -/
theorem stats_exact (toLL : ℝ → Int) (s : Statics ℝ) (ts : Timespec) (ds : List ℝ)
    (hg : Accumulated s ds) :
    ((fetch_source_stats ⟨Real.sqrt, toLL⟩ s ts).2 = none ∧
      Accumulated (fetch_source_stats ⟨Real.sqrt, toLL⟩ s ts).1 ds) ∨
    ∃ rep : Report ℝ, (fetch_source_stats ⟨Real.sqrt, toLL⟩ s ts).2 = some rep ∧
      Accumulated (fetch_source_stats ⟨Real.sqrt, toLL⟩ s ts).1 (ds ++ [rep.pps]) ∧
      rep.avg = mean_spec (ds ++ [rep.pps]) ∧
      rep.std = Real.sqrt (pop_variance_spec (ds ++ [rep.pps])) := by
  by_cases hz : s.prev.tv_sec ≠ 0 ∨ s.prev.tv_nsec ≠ 0
  · right
    rw [stats_of_nonzero _ s ts hz]
    refine ⟨_, rfl, ?_, ?_⟩
    · obtain ⟨hc, h1, h2⟩ := hg
      refine ⟨?_, ?_, ?_⟩
      · simp [hc]
      · simp [h1]
      · simp [h2]
    · have hacc : Accumulated
          (⟨ts, s.pps_sum + (((delta_ns ⟨Real.sqrt, toLL⟩ s.prev ts : Int) : ℝ) * ((1 : Int) : ℝ)
              - ((1000000000 : Int) : ℝ)) / ((1000 : Int) : ℝ),
            s.pps_sum_sq + (((delta_ns ⟨Real.sqrt, toLL⟩ s.prev ts : Int) : ℝ) * ((1 : Int) : ℝ)
              - ((1000000000 : Int) : ℝ)) / ((1000 : Int) : ℝ) *
              ((((delta_ns ⟨Real.sqrt, toLL⟩ s.prev ts : Int) : ℝ) * ((1 : Int) : ℝ)
              - ((1000000000 : Int) : ℝ)) / ((1000 : Int) : ℝ)),
            s.count + 1⟩ : Statics ℝ)
          (ds ++ [(((delta_ns ⟨Real.sqrt, toLL⟩ s.prev ts : Int) : ℝ) * ((1 : Int) : ℝ)
              - ((1000000000 : Int) : ℝ)) / ((1000 : Int) : ℝ)]) := by
        obtain ⟨hc, h1, h2⟩ := hg
        refine ⟨?_, ?_, ?_⟩
        · simp [hc]
        · simp [h1]
        · simp [h2]
      have hspec := variance_eq_spec _ _ (by simp) hacc
      exact ⟨hspec.2, congrArg Real.sqrt hspec.1⟩
  · left
    have hz1 : s.prev.tv_sec = 0 := by
      by_contra hc
      exact hz (Or.inl hc)
    have hz2 : s.prev.tv_nsec = 0 := by
      by_contra hc
      exact hz (Or.inr hc)
    rw [stats_of_zero _ s ts hz1 hz2]
    exact ⟨rfl, hg⟩

end PpsStat

namespace PpsStat

/-- Along any run in exact arithmetic the statics hold the sums of the deviations reported,
and every report carries the mean and the population standard deviation of the deviations
up to and including its own. -/
theorem exact_run_invariant (toLL : ℝ → Int) (fs : List Fetch) :
    ∀ (s : Statics ℝ) (ds : List ℝ), Accumulated s ds →
      Accumulated (unrolled ⟨Real.sqrt, toLL⟩ s fs).statics
        (ds ++ (unrolled ⟨Real.sqrt, toLL⟩ s fs).stdout.map Report.pps) ∧
      ∀ (k : Nat) (rep : Report ℝ), (unrolled ⟨Real.sqrt, toLL⟩ s fs).stdout[k]? = some rep →
        rep.avg = mean_spec
          (ds ++ ((unrolled ⟨Real.sqrt, toLL⟩ s fs).stdout.take (k + 1)).map Report.pps) ∧
        rep.std = Real.sqrt (pop_variance_spec
          (ds ++ ((unrolled ⟨Real.sqrt, toLL⟩ s fs).stdout.take (k + 1)).map Report.pps)) := by
  induction fs with
  | nil =>
    intro s ds hg
    simp [unrolled, hg]
  | cons f fs ih =>
    intro s ds hg
    by_cases h1 : f.ret < 0
    · by_cases h2 : f.ret = -EINTR
      · rw [unrolled_eintr _ s f fs h2]
        exact ih s ds hg
      · by_cases h3 : f.errno ≠ ETIMEDOUT
        · rw [unrolled_fatal _ s f fs h1 h2 h3]
          simp [hg]
        · rw [unrolled_timeout _ s f fs h1 h2 (not_not.mp h3)]
          exact ih s ds hg
    · rw [unrolled_ok _ s f fs (not_lt.mp h1)]
      rcases stats_exact toLL s f.assert_timestamp ds hg with ⟨hnone, hacc⟩ | ⟨rep0, hsome, hacc, havg, hstd⟩
      · rw [hnone]
        simpa using ih _ ds hacc
      · rw [hsome]
        obtain ⟨ihacc, ihrep⟩ := ih _ (ds ++ [rep0.pps]) hacc
        constructor
        · simpa using ihacc
        · intro k rep hk
          cases k with
          | zero =>
            have : rep = rep0 := by simpa using hk.symm
            subst this
            simpa using ⟨havg, hstd⟩
          | succ k =>
            have hk2 : (unrolled ⟨Real.sqrt, toLL⟩
                (fetch_source_stats ⟨Real.sqrt, toLL⟩ s f.assert_timestamp).1 fs).stdout[k]?
                  = some rep := by simpa using hk
            simpa using ihrep k rep hk2

/-- Claim C1: in exact (real) arithmetic, for every sequence of fetches from a fresh session the
loop of `main` returns a run in which the k-th report carries, as running mean, the
arithmetic mean of the deviations `d_1 .. d_k` reported so far, and as standard deviation
the square root of their population variance `(1 / k) * sum_i (d_i - mean) ^ 2`; this holds
whatever the conversion to `long long` yields. The reports are there: the statics count
them, and a sequence of `m` pulses of which none but the last is stamped (0 s, 0 ns)
yields exactly `m - 1` deviations, each printed with its report. -/
theorem running_mean_std_exact (toLL : ℝ → Int) (fs : List Fetch) :
    ∃ r : Run ℝ, main ⟨Real.sqrt, toLL⟩ fs = some r ∧
      (∀ (k : Nat) (rep : Report ℝ), r.stdout[k]? = some rep →
        rep.avg = mean_spec ((r.stdout.take (k + 1)).map Report.pps) ∧
        rep.std = Real.sqrt (pop_variance_spec ((r.stdout.take (k + 1)).map Report.pps))) ∧
      (r.stdout.length : Int) = r.statics.count ∧
      (∀ ts : List Timespec, fs = ts.map pulse →
        (∀ t ∈ ts.dropLast, t.tv_sec ≠ 0 ∨ t.tv_nsec ≠ 0) →
        r.stdout.length = ts.length - 1 ∧
        ∀ k : Nat, k + 1 < ts.length → ∃ rep : Report ℝ, r.stdout[k]? = some rep ∧
          rep.avg = mean_spec ((r.stdout.take (k + 1)).map Report.pps) ∧
          rep.std = Real.sqrt (pop_variance_spec ((r.stdout.take (k + 1)).map Report.pps))) := by
  have h := exact_run_invariant toLL fs Statics.fresh [] accumulated_fresh
  have hrep : ∀ (k : Nat) (rep : Report ℝ),
      (unrolled ⟨Real.sqrt, toLL⟩ Statics.fresh fs).stdout[k]? = some rep →
        rep.avg = mean_spec
          (((unrolled ⟨Real.sqrt, toLL⟩ Statics.fresh fs).stdout.take (k + 1)).map Report.pps) ∧
        rep.std = Real.sqrt (pop_variance_spec
          (((unrolled ⟨Real.sqrt, toLL⟩ Statics.fresh fs).stdout.take (k + 1)).map Report.pps)) := by
    simpa using h.2
  refine ⟨_, main_eq_unrolled _ fs, hrep, ?_, ?_⟩
  · have hc := h.1.1
    simp only [List.nil_append, List.length_map] at hc
    exact hc.symm
  · intro ts hfs hz
    have hlen : (unrolled ⟨Real.sqrt, toLL⟩ Statics.fresh fs).stdout.length = ts.length - 1 := by
      rw [hfs]
      exact reports_of_pulses _ ts hz
    refine ⟨hlen, fun k hk => ?_⟩
    have hk2 : k < (unrolled ⟨Real.sqrt, toLL⟩ Statics.fresh fs).stdout.length := by omega
    refine ⟨(unrolled ⟨Real.sqrt, toLL⟩ Statics.fresh fs).stdout.get ⟨k, hk2⟩, ?_, ?_⟩
    · exact List.getElem?_eq_getElem hk2
    · exact hrep k _ (List.getElem?_eq_getElem hk2)

/-- The scenario of three pulses, the second 10000 ns late, run in exact arithmetic with the
truncation as conversion to `long long`. -/
theorem exact_run_late_then_on_time :
    main ⟨Real.sqrt, fun x => if 0 ≤ x then ⌊x⌋ else ⌈x⌉⟩
        (([⟨1, 0⟩, ⟨2, 10000⟩, ⟨3, 0⟩] : List Timespec).map pulse) =
      some ⟨[⟨1000010000, 10, 10, 0⟩, ⟨999990000, -10, 0, 10⟩], [],
        ⟨⟨3, 0⟩, 0, 200, 2⟩, false⟩ := by
  have hd1 : delta_ns (⟨Real.sqrt, fun x => if 0 ≤ x then ⌊x⌋ else ⌈x⌉⟩ : Libm ℝ) ⟨1, 0⟩ ⟨2, 10000⟩
      = 1000010000 := by
    unfold delta_ns
    norm_num
  have hd2 : delta_ns (⟨Real.sqrt, fun x => if 0 ≤ x then ⌊x⌋ else ⌈x⌉⟩ : Libm ℝ) ⟨2, 10000⟩ ⟨3, 0⟩
      = 999990000 := by
    unfold delta_ns
    norm_num
  have hs0 : Real.sqrt 0 = 0 := Real.sqrt_zero
  have hs100 : Real.sqrt 100 = 10 := by
    rw [show (100 : ℝ) = 10 ^ 2 by norm_num]
    exact Real.sqrt_sq (by norm_num)
  rw [main_eq_unrolled]
  simp only [List.map_cons, List.map_nil]
  rw [unrolled_ok _ _ (pulse ⟨1, 0⟩) _ (le_refl _),
    show (pulse ⟨1, 0⟩).assert_timestamp = ⟨1, 0⟩ from rfl,
    stats_of_zero _ Statics.fresh ⟨1, 0⟩ rfl rfl]
  simp only [Statics.fresh]
  rw [unrolled_ok _ _ (pulse ⟨2, 10000⟩) _ (le_refl _),
    show (pulse ⟨2, 10000⟩).assert_timestamp = ⟨2, 10000⟩ from rfl,
    stats_of_nonzero _ _ _ (Or.inl (show (1 : Int) ≠ 0 by decide))]
  simp only [hd1]
  rw [unrolled_ok _ _ (pulse ⟨3, 0⟩) _ (le_refl _),
    show (pulse ⟨3, 0⟩).assert_timestamp = ⟨3, 0⟩ from rfl,
    stats_of_nonzero _ _ _ (Or.inl (show (2 : Int) ≠ 0 by decide))]
  simp only [hd2, unrolled, variance]
  norm_num [hs0, hs100]

/-- Witness of claim C1: three pulses, the second 10000 ns late, the conversion to
`long long` being the truncation. Two reports are printed, with the deviations 10 and -10;
the second carries their mean, 0, and their population standard deviation, 10. -/
theorem running_mean_std_exact_witness :
    ∃ (r : Run ℝ) (rep : Report ℝ),
      main ⟨Real.sqrt, fun x => if 0 ≤ x then ⌊x⌋ else ⌈x⌉⟩
        (([⟨1, 0⟩, ⟨2, 10000⟩, ⟨3, 0⟩] : List Timespec).map pulse) = some r ∧
      r.stdout.map Report.pps = [10, -10] ∧ r.stdout[1]? = some rep ∧
      rep.avg = mean_spec ((r.stdout.take 2).map Report.pps) ∧
      rep.std = Real.sqrt (pop_variance_spec ((r.stdout.take 2).map Report.pps)) ∧
      rep.avg = 0 ∧ rep.std = 10 := by
  obtain ⟨r, hr, _, _, hp⟩ := running_mean_std_exact (fun x => if 0 ≤ x then ⌊x⌋ else ⌈x⌉)
    (([⟨1, 0⟩, ⟨2, 10000⟩, ⟨3, 0⟩] : List Timespec).map pulse)
  obtain ⟨_, hk⟩ := hp [⟨1, 0⟩, ⟨2, 10000⟩, ⟨3, 0⟩] rfl (by decide)
  obtain ⟨rep, h1, h2, h3⟩ := hk 1 (by decide)
  have hrun := exact_run_late_then_on_time
  rw [hr] at hrun
  have hreq := Option.some.inj hrun
  subst hreq
  have hrep : rep = ⟨999990000, -10, 0, 10⟩ := by simpa using h1.symm
  refine ⟨_, rep, hr, by simp, h1, h2, h3, ?_, ?_⟩
  · rw [hrep]
  · rw [hrep]

/-- Claim C10: in exact (real) arithmetic, for every sequence of fetches from a fresh session
the loop of `main` returns a run whose statics hold as many deviations as were reported
and, when the count is at least one, a variance expression
`pps_sum_sq / count - pps_sum / count * pps_sum / count` that is not negative and is zero
exactly when all the deviations accumulated are equal. -/
theorem variance_nonneg_exact (toLL : ℝ → Int) (fs : List Fetch) :
    ∃ r : Run ℝ, main ⟨Real.sqrt, toLL⟩ fs = some r ∧
      r.statics.count = (r.stdout.length : Int) ∧
      (1 ≤ r.statics.count →
        0 ≤ variance r.statics ∧
        (variance r.statics = 0 ↔
          ∀ a ∈ r.stdout.map Report.pps, ∀ b ∈ r.stdout.map Report.pps, a = b)) := by
  refine ⟨_, main_eq_unrolled _ fs, ?_⟩
  have h := (exact_run_invariant toLL fs Statics.fresh [] accumulated_fresh).1
  rw [List.nil_append] at h
  have hc : (unrolled ⟨Real.sqrt, toLL⟩ Statics.fresh fs).statics.count =
      ((unrolled ⟨Real.sqrt, toLL⟩ Statics.fresh fs).stdout.length : Int) := by
    simpa using h.1
  refine ⟨hc, fun h1 => ?_⟩
  have hne : (unrolled ⟨Real.sqrt, toLL⟩ Statics.fresh fs).stdout.map Report.pps ≠ [] := by
    intro he
    have : (unrolled ⟨Real.sqrt, toLL⟩ Statics.fresh fs).stdout.length = 0 := by
      simpa using congrArg List.length he
    omega
  rw [(variance_eq_spec _ _ hne h).1]
  exact ⟨pop_variance_nonneg _, pop_variance_eq_zero_iff _ hne⟩

end PpsStat
